import Mathlib

/-!
Verification development for the crediblend repository.

Shallow embedding of the code in `src/crediblend/core/io.py`,
`src/crediblend/cli.py` and `src/crediblend/core/report.py`, plus
spec-modelled definitions for the weight optimizer
(`src/crediblend/core/weights.py` is not present in the source tree).

Tables are modelled as lists of rows; a row carries an integer key `id`
and a rational prediction `pred` (the floating-point payload of the
pandas column, inert in all properties proved here).  Python dicts keyed
by model name are modelled as insertion-ordered association lists.
-/

namespace Crediblend

/-- A row of an OOF or submission table: columns id and pred. -/
structure Row where
  id : Nat
  pred : ℚ
deriving DecidableEq, Repr

/-- A pandas DataFrame with columns id, pred as used by the core. -/
abbrev Table := List Row

/-- The id column of a table. -/
def idsOf (t : Table) : List Nat := t.map Row.id

/-- A CSV file on disk: its file name, its header columns, and its rows. -/
structure CsvFile where
  name : String
  cols : List String
  rows : Table
deriving DecidableEq

/-- Python exception values raised by the embedded code.  `schemaError`
is the typed error named by the spec; the code under `src/` only ever
raises `ValueError`, `ImportError` and `TypeError` in the embedded
fragments. -/
inductive PyError where
  | valueError : String → PyError
  | schemaError : String → PyError
  | importError : String → PyError
  | typeError : String → PyError
deriving DecidableEq

/-- True when the computation raised (any) exception. -/
def exceptIsError {ε α : Type} : Except ε α → Bool
  | .error _ => true
  | .ok _ => false

/-- True when the computation raised specifically a SchemaError. -/
def raisedSchemaError {α : Type} : Except PyError α → Bool
  | .error (.schemaError _) => true
  | _ => false

/-- Glob match for a pattern of the form pre + anything + ".csv", as used
by `oof_path.glob("oof_*.csv")` in io.py (star may match the empty
string; the file name is a single path component). -/
def globCsv (pre : String) (name : String) : Bool :=
  decide (pre.data <+: name.data) && decide (".csv".data <:+ name.data)

/-- Python `Path.stem`: the file name without its final ".csv" suffix
(only applied to names matched by `globCsv`, which end in ".csv"). -/
def stem (s : String) : String := String.mk (s.data.take (s.data.length - 4))

/-- Loop body of `read_oof_files` (io.py lines 25-42): for each file
matching oof_*.csv, raise ValueError when the id or pred column is
missing, otherwise store the table under the file stem; after the loop,
raise ValueError when no file matched. -/
def readOofLoop : List CsvFile → List (String × Table) →
    Except PyError (List (String × Table))
  | [], acc =>
    if acc.isEmpty then .error (.valueError "No OOF files found") else .ok acc
  | f :: fs, acc =>
    if globCsv "oof_" f.name then
      if "id" ∈ f.cols ∧ "pred" ∈ f.cols then
        readOofLoop fs (acc ++ [(stem f.name, f.rows)])
      else
        .error (.valueError ("OOF file " ++ f.name ++
          " must have id and pred columns"))
    else readOofLoop fs acc

/-- read_oof_files (io.py lines 10-42), over the listing of the OOF
directory. -/
def readOofFiles (files : List CsvFile) : Except PyError (List (String × Table)) :=
  readOofLoop files []

/-- Loop body of `read_sub_files` (io.py lines 60-74), identical shape
with the sub_*.csv pattern. -/
def readSubLoop : List CsvFile → List (String × Table) →
    Except PyError (List (String × Table))
  | [], acc =>
    if acc.isEmpty then .error (.valueError "No submission files found") else .ok acc
  | f :: fs, acc =>
    if globCsv "sub_" f.name then
      if "id" ∈ f.cols ∧ "pred" ∈ f.cols then
        readSubLoop fs (acc ++ [(stem f.name, f.rows)])
      else
        .error (.valueError ("Submission file " ++ f.name ++
          " must have id and pred columns"))
    else readSubLoop fs acc

/-- read_sub_files (io.py lines 45-74). -/
def readSubFiles (files : List CsvFile) : Except PyError (List (String × Table)) :=
  readSubLoop files []

/-- Comparison of rows by their id key; `sort_values("id")` sorts by
this relation (ids are unique in every table considered here, so the
sorted row list is uniquely determined and stability is irrelevant). -/
def rowLe (a b : Row) : Prop := a.id ≤ b.id

instance : DecidableRel rowLe := fun a b => Nat.decLe a.id b.id

instance : IsTotal Row rowLe := ⟨fun a b => Nat.le_total a.id b.id⟩

instance : IsTrans Row rowLe := ⟨fun _ _ _ h1 h2 => Nat.le_trans h1 h2⟩

/-- `df.sort_values("id")` from io.py line 106. -/
def sortById (t : Table) : Table := List.insertionSort rowLe t

/-- The union of id sets of all tables (io.py lines 90-92, Python set
semantics modelled by Finset). -/
def allIdsSet (fs : List (String × Table)) : Finset Nat :=
  fs.foldl (fun a q => a ∪ (idsOf q.2).toFinset) ∅

/-- The intersection of id sets across all tables (io.py lines 95-97):
seeded with the first table and intersected with every table in turn. -/
def commonIdsSet : List (String × Table) → Finset Nat
  | [] => ∅
  | p :: fs => (p :: fs).foldl (fun a q => a ∩ (idsOf q.2).toFinset)
      (idsOf p.2).toFinset

/-- align_submission_ids (io.py lines 77-109), with the warning emitted
by `warnings.warn` surfaced as the Boolean second component.  Families
of at most one table are returned unchanged (line 86); otherwise every
table is filtered to the common ids, sorted by id, and a warning is
raised exactly when the common id set is strictly smaller than the
union.  The function is total: the source has no raise statement. -/
def alignSubmissionIdsW (fs : List (String × Table)) :
    List (String × Table) × Bool :=
  if fs.length ≤ 1 then (fs, false)
  else
    let common := commonIdsSet fs
    let warned := decide (common.card < (allIdsSet fs).card)
    (fs.map (fun p => (p.1, sortById (p.2.filter (fun r => decide (r.id ∈ common))))),
      warned)

/-- The aligned family returned by align_submission_ids. -/
def alignSubmissionIds (fs : List (String × Table)) : List (String × Table) :=
  (alignSubmissionIdsW fs).1

lemma mem_foldl_union (l : List (String × Table)) (acc : Finset Nat) (i : Nat) :
    i ∈ l.foldl (fun a q => a ∪ (idsOf q.2).toFinset) acc ↔
      i ∈ acc ∨ ∃ q ∈ l, i ∈ idsOf q.2 := by
  induction l generalizing acc with
  | nil => simp
  | cons p l ih =>
    simp only [List.foldl_cons, ih, Finset.mem_union, List.mem_toFinset,
      List.mem_cons]
    constructor
    · rintro (⟨h | h⟩ | ⟨q, hq, h⟩)
      · exact Or.inl h
      · exact Or.inr ⟨p, Or.inl rfl, h⟩
      · exact Or.inr ⟨q, Or.inr hq, h⟩
    · rintro (h | ⟨q, hq | hq, h⟩)
      · exact Or.inl (Or.inl h)
      · exact Or.inl (Or.inr (hq ▸ h))
      · exact Or.inr ⟨q, hq, h⟩

lemma mem_allIdsSet (fs : List (String × Table)) (i : Nat) :
    i ∈ allIdsSet fs ↔ ∃ q ∈ fs, i ∈ idsOf q.2 := by
  simp [allIdsSet, mem_foldl_union]

lemma mem_foldl_inter (l : List (String × Table)) (acc : Finset Nat) (i : Nat) :
    i ∈ l.foldl (fun a q => a ∩ (idsOf q.2).toFinset) acc ↔
      i ∈ acc ∧ ∀ q ∈ l, i ∈ idsOf q.2 := by
  induction l generalizing acc with
  | nil => simp
  | cons p l ih =>
    simp only [List.foldl_cons, ih, Finset.mem_inter, List.mem_toFinset,
      List.mem_cons]
    constructor
    · rintro ⟨⟨h1, h2⟩, h3⟩
      exact ⟨h1, fun q hq => hq.elim (fun e => e ▸ h2) (h3 q)⟩
    · rintro ⟨h1, h2⟩
      exact ⟨⟨h1, h2 p (Or.inl rfl)⟩, fun q hq => h2 q (Or.inr hq)⟩

lemma mem_commonIdsSet (p : String × Table) (fs : List (String × Table)) (i : Nat) :
    i ∈ commonIdsSet (p :: fs) ↔ ∀ q ∈ p :: fs, i ∈ idsOf q.2 := by
  simp only [commonIdsSet, mem_foldl_inter, List.mem_toFinset]
  constructor
  · exact fun h => h.2
  · exact fun h => ⟨h p (List.mem_cons_self p fs), h⟩

lemma commonIdsSet_subset_allIdsSet (fs : List (String × Table)) :
    commonIdsSet fs ⊆ allIdsSet fs := by
  cases fs with
  | nil => simp [commonIdsSet]
  | cons p l =>
    intro i hi
    rw [mem_commonIdsSet] at hi
    rw [mem_allIdsSet]
    exact ⟨p, List.mem_cons_self p l, hi p (List.mem_cons_self p l)⟩

lemma allIdsSet_singleton (p : String × Table) :
    allIdsSet [p] = (idsOf p.2).toFinset := by
  simp [allIdsSet]

lemma commonIdsSet_singleton (p : String × Table) :
    commonIdsSet [p] = (idsOf p.2).toFinset := by
  simp [commonIdsSet]

/-- Ids of the sorted table are the ids of the table, reordered. -/
lemma idsOf_sortById_perm (t : Table) :
    List.Perm (idsOf (sortById t)) (idsOf t) :=
  (List.perm_insertionSort rowLe t).map Row.id

/-- The id column of a sorted table is sorted in ascending order. -/
lemma idsOf_sortById_sorted (t : Table) :
    List.Sorted (fun a b => a ≤ b) (idsOf (sortById t)) :=
  List.Pairwise.map Row.id (fun _ _ h => h) (List.sorted_insertionSort rowLe t)

/-- Filtering a table keeps the id column without duplicates. -/
lemma idsOf_filter_nodup (t : Table) (g : Row → Bool)
    (h : (idsOf t).Nodup) : (idsOf (t.filter g)).Nodup :=
  h.sublist ((List.filter_sublist t).map Row.id)

lemma mem_idsOf_filter (t : Table) (c : Finset Nat) (i : Nat) :
    i ∈ idsOf (t.filter (fun r => decide (r.id ∈ c))) ↔
      (∃ r ∈ t, r.id = i) ∧ i ∈ c := by
  simp only [idsOf, List.mem_map, List.mem_filter, decide_eq_true_eq]
  constructor
  · rintro ⟨r, ⟨hr, hc⟩, rfl⟩
    exact ⟨⟨r, hr, rfl⟩, hc⟩
  · rintro ⟨⟨r, hr, rfl⟩, hc⟩
    exact ⟨r, ⟨hr, hc⟩, rfl⟩

lemma mem_idsOf (t : Table) (i : Nat) :
    i ∈ idsOf t ↔ ∃ r ∈ t, r.id = i := by
  simp [idsOf]

/-- The aligned version of one table: filter to the common ids, sort. -/
def alignOne (c : Finset Nat) (t : Table) : Table :=
  sortById (t.filter (fun r => decide (r.id ∈ c)))

lemma idsOf_alignOne_sorted (c : Finset Nat) (t : Table) :
    List.Sorted (fun a b => a ≤ b) (idsOf (alignOne c t)) :=
  idsOf_sortById_sorted _

lemma idsOf_alignOne_nodup (c : Finset Nat) (t : Table)
    (h : (idsOf t).Nodup) : (idsOf (alignOne c t)).Nodup :=
  ((idsOf_sortById_perm _).nodup_iff).mpr (idsOf_filter_nodup t _ h)

lemma mem_idsOf_alignOne (c : Finset Nat) (t : Table) (i : Nat) :
    i ∈ idsOf (alignOne c t) ↔ i ∈ idsOf t ∧ i ∈ c := by
  rw [alignOne, (idsOf_sortById_perm _).mem_iff, mem_idsOf_filter, mem_idsOf]

/-- Two sorted duplicate-free lists of naturals with the same members
are equal. -/
lemma sorted_nodup_ext (l₁ l₂ : List Nat)
    (hs₁ : List.Sorted (fun a b => a ≤ b) l₁)
    (hs₂ : List.Sorted (fun a b => a ≤ b) l₂)
    (hn₁ : l₁.Nodup) (hn₂ : l₂.Nodup)
    (h : ∀ i, i ∈ l₁ ↔ i ∈ l₂) : l₁ = l₂ :=
  List.eq_of_perm_of_sorted ((List.perm_ext_iff_of_nodup hn₁ hn₂).mpr h) hs₁ hs₂

lemma alignSubmissionIds_of_two_le (fs : List (String × Table))
    (h : 2 ≤ fs.length) :
    alignSubmissionIds fs =
      fs.map (fun p => (p.1, alignOne (commonIdsSet fs) p.2)) := by
  have hlen : ¬ (fs.length ≤ 1) := by omega
  simp [alignSubmissionIds, alignSubmissionIdsW, hlen, alignOne]

lemma zip_map_self {α β : Type} (g : α → β) (l : List α) :
    ∀ pq ∈ l.zip (l.map g), pq.2 = g pq.1 := by
  induction l with
  | nil => simp
  | cons a l ih =>
    intro pq hpq
    rcases List.mem_cons.mp hpq with h | h
    · rw [h]
    · exact ih pq h

lemma mem_idsOf_alignOne_common (fs : List (String × Table)) (hne : fs ≠ [])
    (p : String × Table) (hp : p ∈ fs) (i : Nat) :
    i ∈ idsOf (alignOne (commonIdsSet fs) p.2) ↔ i ∈ commonIdsSet fs := by
  cases fs with
  | nil => exact absurd rfl hne
  | cons a l =>
    rw [mem_idsOf_alignOne]
    constructor
    · exact fun h => h.2
    · intro h
      exact ⟨(mem_commonIdsSet a l i).mp h p hp, h⟩

/-- C1 (amended): for a family of at least two submission tables, each
with unique ids, align_submission_ids keeps the model keys in order,
returns for each model exactly the rows whose id lies in the
intersection of all id sets (as a reordering of the filtered table),
sorts every table ascending by id, and all returned tables carry the
identical id sequence.  For a family of exactly one table the function
returns the table unchanged, so the sortedness part of the claim fails
there (see the counterexample). -/
theorem align_submission_ids_spec (fs : List (String × Table))
    (hlen : 2 ≤ fs.length) (hnd : ∀ p ∈ fs, (idsOf p.2).Nodup) :
    ((alignSubmissionIds fs).map Prod.fst = fs.map Prod.fst) ∧
    (∀ pq ∈ fs.zip (alignSubmissionIds fs),
        pq.2.1 = pq.1.1 ∧
        List.Perm pq.2.2
          (pq.1.2.filter (fun r => decide (r.id ∈ commonIdsSet fs)))) ∧
    (∀ p ∈ alignSubmissionIds fs,
        List.Sorted (fun a b => a ≤ b) (idsOf p.2)) ∧
    (∀ p ∈ alignSubmissionIds fs, ∀ q ∈ alignSubmissionIds fs,
        idsOf p.2 = idsOf q.2) := by
  have hne : fs ≠ [] := by
    intro h
    rw [h] at hlen
    exact absurd hlen (by decide)
  have heq := alignSubmissionIds_of_two_le fs hlen
  refine ⟨?_, ?_, ?_, ?_⟩
  · rw [heq, List.map_map]
    rfl
  · intro pq hpq
    rw [heq] at hpq
    have h2 := zip_map_self _ fs pq hpq
    rw [h2]
    exact ⟨rfl, List.perm_insertionSort rowLe _⟩
  · intro p hp
    rw [heq] at hp
    obtain ⟨q, _, rfl⟩ := List.mem_map.mp hp
    exact idsOf_alignOne_sorted _ _
  · intro p hp q hq
    rw [heq] at hp hq
    obtain ⟨p₀, hp₀, rfl⟩ := List.mem_map.mp hp
    obtain ⟨q₀, hq₀, rfl⟩ := List.mem_map.mp hq
    refine sorted_nodup_ext _ _ (idsOf_alignOne_sorted _ _)
      (idsOf_alignOne_sorted _ _)
      (idsOf_alignOne_nodup _ _ (hnd p₀ hp₀))
      (idsOf_alignOne_nodup _ _ (hnd q₀ hq₀)) ?_
    intro i
    rw [mem_idsOf_alignOne_common fs hne p₀ hp₀ i,
      mem_idsOf_alignOne_common fs hne q₀ hq₀ i]

/-- A two-table family with distinct, unsorted ids, witnessing the
amended alignment claim. -/
def famAlign : List (String × Table) :=
  [("a", [⟨1, 0⟩, ⟨3, 0⟩]), ("b", [⟨3, 0⟩, ⟨2, 0⟩])]

/-- Witness for align_submission_ids_spec at a concrete family. -/
theorem align_submission_ids_spec_witness :
    (2 ≤ famAlign.length ∧ ∀ p ∈ famAlign, (idsOf p.2).Nodup) ∧
    (((alignSubmissionIds famAlign).map Prod.fst = famAlign.map Prod.fst) ∧
      (∀ pq ∈ famAlign.zip (alignSubmissionIds famAlign),
          pq.2.1 = pq.1.1 ∧
          List.Perm pq.2.2
            (pq.1.2.filter (fun r => decide (r.id ∈ commonIdsSet famAlign)))) ∧
      (∀ p ∈ alignSubmissionIds famAlign,
          List.Sorted (fun a b => a ≤ b) (idsOf p.2)) ∧
      (∀ p ∈ alignSubmissionIds famAlign, ∀ q ∈ alignSubmissionIds famAlign,
          idsOf p.2 = idsOf q.2)) :=
  ⟨⟨by decide, by decide⟩,
    align_submission_ids_spec famAlign (by decide) (by decide)⟩

/-- A one-table family whose ids are not in ascending order. -/
def famSingle : List (String × Table) := [("a", [⟨2, 0⟩, ⟨1, 0⟩])]

/-- C1 counterexample: a family of exactly one table, with unique ids,
is returned unchanged by align_submission_ids (io.py line 86), so its
id column is not sorted ascending, contradicting the claim that the
alignment guarantee also holds for a single-table family. -/
theorem align_submission_ids_single_unsorted :
    (∀ p ∈ famSingle, (idsOf p.2).Nodup) ∧
    alignSubmissionIds famSingle = famSingle ∧
    ¬ List.Sorted (fun a b => a ≤ b) (idsOf [⟨2, 0⟩, ⟨1, 0⟩]) := by
  refine ⟨by decide, by rfl, by decide⟩

/-- C3: when the union of the submission id sets is strictly larger
than their intersection, align_submission_ids issues the ID-mismatch
warning (io.py line 100) rather than raising (the function is total and
always returns), and every row of every returned table has its id in
the intersection of all submissions' id sets. -/
theorem align_warns_on_mismatch (fs : List (String × Table))
    (h : commonIdsSet fs ⊂ allIdsSet fs) :
    (alignSubmissionIdsW fs).2 = true ∧
    ∀ p ∈ (alignSubmissionIdsW fs).1, ∀ r ∈ p.2, r.id ∈ commonIdsSet fs := by
  match fs, h with
  | [], h =>
    exact absurd h (by simp [commonIdsSet, allIdsSet])
  | [p], h =>
    rw [commonIdsSet_singleton, allIdsSet_singleton] at h
    exact absurd h (ssubset_irrefl _)
  | a :: b :: l, h =>
    have hlen : ¬ ((a :: b :: l).length ≤ 1) := by
      simp [List.length]
    constructor
    · simp only [alignSubmissionIdsW, if_neg hlen]
      exact decide_eq_true (Finset.card_lt_card h)
    · simp only [alignSubmissionIdsW, if_neg hlen]
      intro p hp r hr
      obtain ⟨q, _, rfl⟩ := List.mem_map.mp hp
      have hm := ((List.perm_insertionSort rowLe _).mem_iff).mp hr
      have hf := List.mem_filter.mp hm
      simpa using hf.2

/-- Witness for align_warns_on_mismatch at a concrete mismatching
family. -/
theorem align_warns_on_mismatch_witness :
    commonIdsSet famAlign ⊂ allIdsSet famAlign ∧
    ((alignSubmissionIdsW famAlign).2 = true ∧
      ∀ p ∈ (alignSubmissionIdsW famAlign).1, ∀ r ∈ p.2,
        r.id ∈ commonIdsSet famAlign) :=
  ⟨by decide, align_warns_on_mismatch famAlign (by decide)⟩

lemma readOofLoop_no_match (l : List CsvFile)
    (h : ∀ f ∈ l, globCsv "oof_" f.name = false) (acc : List (String × Table)) :
    readOofLoop l acc =
      if acc.isEmpty then .error (.valueError "No OOF files found")
      else .ok acc := by
  induction l generalizing acc with
  | nil => rfl
  | cons f fs ih =>
    have hf := h f (List.mem_cons_self f fs)
    simp only [readOofLoop, hf, Bool.false_eq_true, if_false]
    exact ih (fun g hg => h g (List.mem_cons_of_mem f hg)) acc

lemma readSubLoop_no_match (l : List CsvFile)
    (h : ∀ f ∈ l, globCsv "sub_" f.name = false) (acc : List (String × Table)) :
    readSubLoop l acc =
      if acc.isEmpty then .error (.valueError "No submission files found")
      else .ok acc := by
  induction l generalizing acc with
  | nil => rfl
  | cons f fs ih =>
    have hf := h f (List.mem_cons_self f fs)
    simp only [readSubLoop, hf, Bool.false_eq_true, if_false]
    exact ih (fun g hg => h g (List.mem_cons_of_mem f hg)) acc

/-- C7: when no file in the OOF directory matches oof_*.csv, and no file
in the submission directory matches sub_*.csv, both readers raise a
ValueError (io.py lines 39-41 and 71-72): zero models is fatal for the
run, not silently skipped (the cli wraps the whole pipeline and turns
any raised exception into an aborting ClickException, cli.py lines
323-325). -/
theorem read_files_zero_models_fatal (oofFiles subFiles : List CsvFile)
    (h1 : ∀ f ∈ oofFiles, globCsv "oof_" f.name = false)
    (h2 : ∀ f ∈ subFiles, globCsv "sub_" f.name = false) :
    readOofFiles oofFiles = .error (.valueError "No OOF files found") ∧
    readSubFiles subFiles = .error (.valueError "No submission files found") := by
  constructor
  · rw [readOofFiles, readOofLoop_no_match oofFiles h1 []]
    rfl
  · rw [readSubFiles, readSubLoop_no_match subFiles h2 []]
    rfl

/-- Witness for read_files_zero_models_fatal on directories holding only
non-matching files. -/
theorem read_files_zero_models_fatal_witness :
    (∀ f ∈ [CsvFile.mk "notes.txt" [] []], globCsv "oof_" f.name = false) ∧
    (∀ f ∈ ([] : List CsvFile), globCsv "sub_" f.name = false) ∧
    (readOofFiles [CsvFile.mk "notes.txt" [] []] =
        .error (.valueError "No OOF files found") ∧
      readSubFiles [] = .error (.valueError "No submission files found")) :=
  ⟨by decide, by decide,
    read_files_zero_models_fatal _ _ (by decide) (by decide)⟩

lemma readOofLoop_missing_col (l : List CsvFile)
    (h : ∃ f ∈ l, globCsv "oof_" f.name = true ∧
      ¬ ("id" ∈ f.cols ∧ "pred" ∈ f.cols)) (acc : List (String × Table)) :
    ∃ m, readOofLoop l acc = .error (.valueError m) := by
  induction l generalizing acc with
  | nil => simp at h
  | cons f fs ih =>
    obtain ⟨g, hg, hmatch, hcols⟩ := h
    rcases List.mem_cons.mp hg with rfl | hg₂
    · refine ⟨"OOF file " ++ g.name ++ " must have id and pred columns", ?_⟩
      simp only [readOofLoop, hmatch, if_true, hcols, if_false]
    · by_cases hm : globCsv "oof_" f.name
      · by_cases hok : ("id" ∈ f.cols ∧ "pred" ∈ f.cols)
        · simp only [readOofLoop, hm, if_true, hok, if_true]
          exact ih ⟨g, hg₂, hmatch, hcols⟩ _
        · refine ⟨"OOF file " ++ f.name ++ " must have id and pred columns", ?_⟩
          simp only [readOofLoop, hm, if_true, hok, if_false]
      · simp only [readOofLoop, hm, Bool.false_eq_true, if_false]
        exact ih ⟨g, hg₂, hmatch, hcols⟩ _

lemma readSubLoop_missing_col (l : List CsvFile)
    (h : ∃ f ∈ l, globCsv "sub_" f.name = true ∧
      ¬ ("id" ∈ f.cols ∧ "pred" ∈ f.cols)) (acc : List (String × Table)) :
    ∃ m, readSubLoop l acc = .error (.valueError m) := by
  induction l generalizing acc with
  | nil => simp at h
  | cons f fs ih =>
    obtain ⟨g, hg, hmatch, hcols⟩ := h
    rcases List.mem_cons.mp hg with rfl | hg₂
    · refine ⟨"Submission file " ++ g.name ++ " must have id and pred columns", ?_⟩
      simp only [readSubLoop, hmatch, if_true, hcols, if_false]
    · by_cases hm : globCsv "sub_" f.name
      · by_cases hok : ("id" ∈ f.cols ∧ "pred" ∈ f.cols)
        · simp only [readSubLoop, hm, if_true, hok, if_true]
          exact ih ⟨g, hg₂, hmatch, hcols⟩ _
        · refine ⟨"Submission file " ++ f.name ++ " must have id and pred columns", ?_⟩
          simp only [readSubLoop, hm, if_true, hok, if_false]
      · simp only [readSubLoop, hm, Bool.false_eq_true, if_false]
        exact ih ⟨g, hg₂, hmatch, hcols⟩ _

/-- C5 (amended): when a loaded OOF or submission CSV file lacks a
required column (id or pred), loading fails at the load boundary with a
raised ValueError naming the file (io.py lines 29-30 and 64-65) - an
explicit load-boundary check, but a plain ValueError, not the typed
SchemaError the spec names. -/
theorem read_files_missing_column_value_error
    (oofFiles subFiles : List CsvFile)
    (h1 : ∃ f ∈ oofFiles, globCsv "oof_" f.name = true ∧
      ("id" ∉ f.cols ∨ "pred" ∉ f.cols))
    (h2 : ∃ f ∈ subFiles, globCsv "sub_" f.name = true ∧
      ("id" ∉ f.cols ∨ "pred" ∉ f.cols)) :
    (∃ m, readOofFiles oofFiles = .error (.valueError m)) ∧
    (∃ m, readSubFiles subFiles = .error (.valueError m)) := by
  constructor
  · refine readOofLoop_missing_col oofFiles ?_ []
    obtain ⟨f, hf, hm, hc⟩ := h1
    exact ⟨f, hf, hm, fun hok => hc.elim (fun h => h hok.1) (fun h => h hok.2)⟩
  · refine readSubLoop_missing_col subFiles ?_ []
    obtain ⟨f, hf, hm, hc⟩ := h2
    exact ⟨f, hf, hm, fun hok => hc.elim (fun h => h hok.1) (fun h => h hok.2)⟩

/-- An OOF file lacking the pred column and a submission file lacking
the id column. -/
def oofNoPred : CsvFile := ⟨"oof_a.csv", ["id", "target"], []⟩

/-- A submission file lacking the id column. -/
def subNoId : CsvFile := ⟨"sub_a.csv", ["pred"], []⟩

/-- Witness for read_files_missing_column_value_error at concrete
files. -/
theorem read_files_missing_column_value_error_witness :
    (∃ f ∈ [oofNoPred], globCsv "oof_" f.name = true ∧
      ("id" ∉ f.cols ∨ "pred" ∉ f.cols)) ∧
    (∃ f ∈ [subNoId], globCsv "sub_" f.name = true ∧
      ("id" ∉ f.cols ∨ "pred" ∉ f.cols)) ∧
    ((∃ m, readOofFiles [oofNoPred] = .error (.valueError m)) ∧
      (∃ m, readSubFiles [subNoId] = .error (.valueError m))) :=
  ⟨by decide, by decide,
    read_files_missing_column_value_error _ _ (by decide) (by decide)⟩

/-- C5 counterexample: loading an OOF file that lacks the pred column
does fail at the load boundary, but the raised exception is a plain
ValueError, not the typed SchemaError claimed by the spec. -/
theorem read_oof_missing_column_not_schema_error :
    exceptIsError (readOofFiles [oofNoPred]) = true ∧
    raisedSchemaError (readOofFiles [oofNoPred]) = false := by
  exact ⟨by decide, by decide⟩

lemma globCsv_append (pre mid : String) :
    globCsv pre (pre ++ mid ++ ".csv") = true := by
  simp only [globCsv, Bool.and_eq_true, decide_eq_true_eq, String.data_append]
  constructor
  · rw [List.append_assoc]
    exact List.prefix_append _ _
  · exact List.suffix_append _ _

lemma stem_append_csv (s : String) : stem (s ++ ".csv") = s := by
  simp only [stem, String.data_append]
  have h4 : (".csv".data).length = 4 := rfl
  rw [List.length_append, h4, Nat.add_sub_cancel, List.take_left]

lemma oof_key_ne_sub_key (x : String) : ("oof_" ++ x) ≠ ("sub_" ++ x) := by
  intro h
  have hd := congrArg String.data h
  rw [String.data_append, String.data_append] at hd
  simp at hd

/-- C6 (amended): the two collections are keyed by the full file stem,
prefix included (io.py lines 35 and 67): a model whose files are
oof_<name>.csv and sub_<name>.csv is stored under key oof_<name> in the
OOF collection and under the different key sub_<name> in the submission
collection, so the two collections are not keyed by one shared model
identifier. -/
theorem read_files_keys_keep_affixes (x : String) (cols1 cols2 : List String)
    (rows1 rows2 : Table)
    (h1 : "id" ∈ cols1 ∧ "pred" ∈ cols1)
    (h2 : "id" ∈ cols2 ∧ "pred" ∈ cols2) :
    readOofFiles [⟨"oof_" ++ x ++ ".csv", cols1, rows1⟩] =
      .ok [("oof_" ++ x, rows1)] ∧
    readSubFiles [⟨"sub_" ++ x ++ ".csv", cols2, rows2⟩] =
      .ok [("sub_" ++ x, rows2)] ∧
    ("oof_" ++ x) ≠ ("sub_" ++ x) := by
  refine ⟨?_, ?_, oof_key_ne_sub_key x⟩
  · show readOofLoop _ [] = _
    simp only [readOofLoop, globCsv_append, if_true, h1, and_self,
      List.nil_append, stem_append_csv, List.isEmpty_cons, Bool.false_eq_true,
      if_false]
  · show readSubLoop _ [] = _
    simp only [readSubLoop, globCsv_append, if_true, h2, and_self,
      List.nil_append, stem_append_csv, List.isEmpty_cons, Bool.false_eq_true,
      if_false]

/-- Witness for read_files_keys_keep_affixes at model name a. -/
theorem read_files_keys_keep_affixes_witness :
    ("id" ∈ ["id", "pred"] ∧ "pred" ∈ ["id", "pred"]) ∧
    (readOofFiles [⟨"oof_" ++ "a" ++ ".csv", ["id", "pred"], []⟩] =
        .ok [("oof_" ++ "a", [])] ∧
      readSubFiles [⟨"sub_" ++ "a" ++ ".csv", ["id", "pred"], []⟩] =
        .ok [("sub_" ++ "a", [])] ∧
      ("oof_" ++ "a") ≠ ("sub_" ++ "a")) :=
  ⟨by decide,
    read_files_keys_keep_affixes "a" _ _ [] [] (by decide) (by decide)⟩

/-- C6 counterexample: for the model named a, the OOF table is stored
under key oof_a while its submission table is stored under key sub_a;
the keys are not equal, so the two collections are not keyed by the same
model identifier. -/
theorem read_files_keys_not_shared :
    readOofFiles [⟨"oof_a.csv", ["id", "pred"], []⟩] = .ok [("oof_a", [])] ∧
    readSubFiles [⟨"sub_a.csv", ["id", "pred"], []⟩] = .ok [("sub_a", [])] ∧
    ("oof_a" : String) ≠ "sub_a" := by
  exact ⟨rfl, rfl, by decide⟩

/-- The names defined at module level by core/io.py (its four function
definitions). -/
def ioModuleDefs : List String :=
  ["read_oof_files", "read_sub_files", "align_submission_ids", "save_outputs"]

/-- The names cli.py line 10 imports from core.io. -/
def cliCoreIoImports : List String :=
  ["read_oof_files", "read_sub_files", "align_submission_ids",
    "save_outputs", "create_meta_json"]

/-- Number of parameters of read_oof_files (io.py line 10: only
oof_dir). -/
def readOofFilesParamCount : Nat := 1

/-- Number of positional arguments cli.py line 100 passes to
read_oof_files (oof_dir and time_col). -/
def cliReadOofCallArgCount : Nat := 2

/-- Keyword parameters accepted by generate_report (report.py lines
33-41); the signature has no var-keyword parameter. -/
def generateReportParams : List String :=
  ["oof_metrics", "methods_df", "blend_results", "config",
    "decorrelation_info", "cluster_summary", "stacking_info",
    "weight_info", "plots"]

/-- Keyword arguments cli.py lines 225-234 passes to generate_report. -/
def cliGenerateReportKwargs : List String :=
  ["decorrelation_info", "cluster_summary", "stacking_info",
    "weight_info", "plots", "stability_report", "window_metrics"]

/-- The command-line options of a cli invocation (cli.py lines 24-45). -/
structure CliArgs where
  oofDir : String
  subDir : String
  outDir : String
  metric : String
  targetCol : String
  methods : String
  seed : Option Int
  timeCol : Option String
deriving DecidableEq

/-- Static call-semantics model of running the cli module and `main`
(cli.py): importing the module resolves every name imported from
core.io against the definitions of io.py, raising ImportError at the
first unresolved name before main can run; were that to succeed, the
body of main would call read_oof_files with more positional arguments
than its signature accepts (TypeError), and later call generate_report
with keyword arguments its signature does not accept (TypeError);
save_outputs (the save step, cli.py line 238) is reached only when all
those checks pass.  The model is independent of the option values, as
are the three defects. -/
def cliRun (args : CliArgs) : Except PyError Unit :=
  match cliCoreIoImports.find? (fun n => ! ioModuleDefs.contains n) with
  | some n => .error (.importError n)
  | none =>
    if readOofFilesParamCount < cliReadOofCallArgCount then
      .error (.typeError "read_oof_files takes 1 positional argument")
    else if ! cliGenerateReportKwargs.all (fun k => generateReportParams.contains k) then
      .error (.typeError "generate_report got an unexpected keyword argument")
    else
      .ok ()

/-- C2: the cli pipeline can never complete a run and reach the save
step: create_meta_json is imported from core.io but io.py does not
define it; read_oof_files is called with a second positional argument
its one-parameter signature rejects; generate_report is called with the
stability_report and window_metrics keyword arguments its signature
does not accept; consequently cliRun terminates with an error (the
ImportError, raised before main executes) for every invocation. -/
theorem cli_run_always_fails (args : CliArgs) :
    ("create_meta_json" ∈ cliCoreIoImports ∧
      "create_meta_json" ∉ ioModuleDefs) ∧
    readOofFilesParamCount < cliReadOofCallArgCount ∧
    ("stability_report" ∈ cliGenerateReportKwargs ∧
      "stability_report" ∉ generateReportParams ∧
      "window_metrics" ∈ cliGenerateReportKwargs ∧
      "window_metrics" ∉ generateReportParams) ∧
    cliRun args = .error (.importError "create_meta_json") := by
  refine ⟨by decide, by decide, by decide, rfl⟩

/-- First value in the dict for key k (Python dict lookup on an
insertion-ordered association list with unique keys). -/
def lookupKey (k : String) (l : List (String × Table)) : Option Table :=
  (l.find? (fun p => p.1 == k)).map Prod.snd

/-- Best-submission selection, cli.py lines 169-174: take the
best_single blend result when present, otherwise the mean blend result,
otherwise the first entry of the results dict; none when the dict is
empty (Python raises IndexError there). -/
def selectBestSubmission (br : List (String × Table)) : Option Table :=
  match lookupKey "best_single" br with
  | some t => some t
  | none =>
    match lookupKey "mean" br with
    | some t => some t
    | none => br.head?.map Prod.snd

/-- The file save_outputs writes the selected submission to
(io.py line 126). -/
def bestSubmissionFile (br : List (String × Table)) : Option (String × Table) :=
  (selectBestSubmission br).map (fun t => ("best_submission.csv", t))

/-- C10: the submission saved as best_submission.csv is the best_single
blend result whenever one was computed; otherwise the mean blend
result; and when neither exists it is the first blend result of the
results mapping. -/
theorem select_best_submission_cases (br : List (String × Table)) :
    (∀ t, lookupKey "best_single" br = some t →
      bestSubmissionFile br = some ("best_submission.csv", t)) ∧
    (lookupKey "best_single" br = none →
      ∀ t, lookupKey "mean" br = some t →
        bestSubmissionFile br = some ("best_submission.csv", t)) ∧
    (lookupKey "best_single" br = none → lookupKey "mean" br = none →
      ∀ p, br.head? = some p →
        bestSubmissionFile br = some ("best_submission.csv", p.2)) := by
  refine ⟨?_, ?_, ?_⟩
  · intro t ht
    simp [bestSubmissionFile, selectBestSubmission, ht]
  · intro h1 t ht
    simp [bestSubmissionFile, selectBestSubmission, h1, ht]
  · intro h1 h2 p hp
    simp [bestSubmissionFile, selectBestSubmission, h1, h2, hp]

/-- A concrete blend-results dict with a best_single entry. -/
def brWitness : List (String × Table) :=
  [("mean", [⟨1, 1⟩]), ("best_single", [⟨1, 2⟩])]

/-- Witness for select_best_submission_cases: with a best_single entry
present it is the saved submission. -/
theorem select_best_submission_cases_witness :
    lookupKey "best_single" brWitness = some [⟨1, 2⟩] ∧
    bestSubmissionFile brWitness = some ("best_submission.csv", [⟨1, 2⟩]) :=
  ⟨by decide, (select_best_submission_cases brWitness).1 [⟨1, 2⟩] (by decide)⟩

/-- A stability report: method name to score entries plus plots, kept
abstract as an association list. -/
abbrev StabilityReport := List (String × ℚ)

/-- Outcomes of the three fallible stage bodies of main: the calls into
the stacking, weight-optimization and stability modules either return a
value or raise (the modules themselves are outside src/; only the
try/except structure around them, cli.py lines 141-152, 154-167 and
179-207, is modelled here). -/
structure StageOutcomes where
  stackingOutcome : Except String Table
  weightOutcome : Except String Table
  stabilityOutcome : Except String StabilityReport

/-- cli.py lines 141-152: when stacking is enabled, try the stacking
call; on success store its table under the stacking key of
blend_results, on an exception print a warning and leave blend_results
unchanged. -/
def applyStackingStage (enabled : Bool) (o : Except String Table)
    (br : List (String × Table)) : List (String × Table) :=
  if enabled then
    match o with
    | .ok t => br ++ [("stacking", t)]
    | .error _ => br
  else br

/-- cli.py lines 154-167: when weight optimization runs, try the
optimizer call; on success store its table under the
weight_optimization key, on an exception print a warning and leave
blend_results unchanged. -/
def applyWeightStage (runs : Bool) (o : Except String Table)
    (br : List (String × Table)) : List (String × Table) :=
  if runs then
    match o with
    | .ok t => br ++ [("weight_optimization", t)]
    | .error _ => br
  else br

/-- cli.py lines 176-207: stability_report starts empty; when a time
column is given, try the windowed analysis; on success the produced
report is kept, on an exception a warning is printed and the report is
reset to empty. -/
def stabilityAfter (timeCol : Option String)
    (o : Except String StabilityReport) : StabilityReport :=
  match timeCol with
  | none => []
  | some _ =>
    match o with
    | .ok r => r
    | .error _ => []

/-- The outputs main goes on to produce after the optional stages. -/
structure TailOutputs where
  blendResults : List (String × Table)
  stabilityReport : StabilityReport
  savedBest : Option (String × Table)

/-- The portion of main from the stacking stage to the save step
(cli.py lines 139-238), as a total function of the stage outcomes: each
optional stage is wrapped in try/except, so the run always continues to
best-submission selection and saving. -/
def pipelineTail (stackingEnabled : Bool) (weightRuns : Bool)
    (timeCol : Option String) (br0 : List (String × Table))
    (s : StageOutcomes) : TailOutputs :=
  let br1 := applyStackingStage stackingEnabled s.stackingOutcome br0
  let br2 := applyWeightStage weightRuns s.weightOutcome br1
  { blendResults := br2
    stabilityReport := stabilityAfter timeCol s.stabilityOutcome
    savedBest := bestSubmissionFile br2 }

lemma lookupKey_append_single (k k' : String) (t : Table)
    (br : List (String × Table)) (hne : k ≠ k') :
    lookupKey k (br ++ [(k', t)]) = lookupKey k br := by
  simp only [lookupKey, List.find?_append]
  cases h : br.find? (fun p => p.1 == k) with
  | some p => simp [Option.or]
  | none =>
    simp only [Option.or]
    have : ((k', t).1 == k) = false := by
      simp only [beq_eq_false_iff_ne]
      exact fun he => hne (he ▸ rfl)
    simp [List.find?, this]

lemma lookupKey_applyStackingStage (k : String) (hk : k ≠ "stacking")
    (enabled : Bool) (o : Except String Table) (br : List (String × Table)) :
    lookupKey k (applyStackingStage enabled o br) = lookupKey k br := by
  unfold applyStackingStage
  cases enabled with
  | false => rfl
  | true =>
    cases o with
    | ok t => exact lookupKey_append_single k "stacking" t br hk
    | error e => rfl

lemma lookupKey_applyWeightStage_ne (k : String)
    (hk : k ≠ "weight_optimization") (runs : Bool)
    (o : Except String Table) (br : List (String × Table)) :
    lookupKey k (applyWeightStage runs o br) = lookupKey k br := by
  unfold applyWeightStage
  cases runs with
  | false => rfl
  | true =>
    cases o with
    | ok t => exact lookupKey_append_single k "weight_optimization" t br hk
    | error e => rfl

/-- C4: when the stacking call, the weight-optimization call, or the
time-sliced stability analysis raises, main catches the exception,
omits that method from the results (no stacking or weight_optimization
key among the blend results, empty stability report) and still produces
its remaining outputs, including the saved best submission, instead of
aborting.  The hypotheses record that blend_predictions itself does not
produce entries under those two keys (it computes only the
parameter-free methods). -/
theorem pipeline_stage_failures_degrade (stackingEnabled weightRuns : Bool)
    (timeCol : Option String) (br0 : List (String × Table))
    (s : StageOutcomes)
    (h1 : lookupKey "stacking" br0 = none)
    (h2 : lookupKey "weight_optimization" br0 = none) :
    (exceptIsError s.stackingOutcome = true →
      lookupKey "stacking"
        (pipelineTail stackingEnabled weightRuns timeCol br0 s).blendResults
        = none) ∧
    (exceptIsError s.weightOutcome = true →
      lookupKey "weight_optimization"
        (pipelineTail stackingEnabled weightRuns timeCol br0 s).blendResults
        = none) ∧
    (exceptIsError s.stabilityOutcome = true →
      (pipelineTail stackingEnabled weightRuns timeCol br0 s).stabilityReport
        = []) ∧
    (pipelineTail stackingEnabled weightRuns timeCol br0 s).savedBest =
      bestSubmissionFile
        (pipelineTail stackingEnabled weightRuns timeCol br0 s).blendResults := by
  refine ⟨?_, ?_, ?_, rfl⟩
  · intro herr
    have hskip : applyStackingStage stackingEnabled s.stackingOutcome br0 = br0 := by
      unfold applyStackingStage
      cases hso : s.stackingOutcome with
      | ok t =>
        rw [hso] at herr
        exact absurd herr (by simp [exceptIsError])
      | error e => cases stackingEnabled <;> rfl
    show lookupKey "stacking" (applyWeightStage _ _ _) = none
    rw [lookupKey_applyWeightStage_ne "stacking" (by decide) _ _ _, hskip, h1]
  · intro herr
    have hskip : ∀ br, applyWeightStage weightRuns s.weightOutcome br = br := by
      intro br
      unfold applyWeightStage
      cases hso : s.weightOutcome with
      | ok t =>
        rw [hso] at herr
        exact absurd herr (by simp [exceptIsError])
      | error e => cases weightRuns <;> rfl
    show lookupKey "weight_optimization"
      (applyWeightStage _ _ (applyStackingStage _ _ _)) = none
    rw [hskip, lookupKey_applyStackingStage _ (by decide), h2]
  · intro herr
    show stabilityAfter timeCol s.stabilityOutcome = []
    unfold stabilityAfter
    cases timeCol with
    | none => rfl
    | some c =>
      cases hso : s.stabilityOutcome with
      | ok r => rw [hso] at herr; exact absurd herr (by simp [exceptIsError])
      | error e => rfl

/-- Witness for pipeline_stage_failures_degrade: all three stages fail
on a concrete run and all three degradations hold. -/
theorem pipeline_stage_failures_degrade_witness :
    lookupKey "stacking" [("mean", [⟨1, 1⟩])] = none ∧
    lookupKey "weight_optimization" [("mean", [⟨1, 1⟩])] = none ∧
    ((exceptIsError (Except.error "boom" : Except String Table) = true →
      lookupKey "stacking"
        (pipelineTail true true (some "date") [("mean", [⟨1, 1⟩])]
          ⟨.error "boom", .error "boom", .error "boom"⟩).blendResults = none) ∧
    (exceptIsError (Except.error "boom" : Except String Table) = true →
      lookupKey "weight_optimization"
        (pipelineTail true true (some "date") [("mean", [⟨1, 1⟩])]
          ⟨.error "boom", .error "boom", .error "boom"⟩).blendResults = none) ∧
    (exceptIsError (Except.error "boom" : Except String StabilityReport) = true →
      (pipelineTail true true (some "date") [("mean", [⟨1, 1⟩])]
        ⟨.error "boom", .error "boom", .error "boom"⟩).stabilityReport = []) ∧
    (pipelineTail true true (some "date") [("mean", [⟨1, 1⟩])]
        ⟨.error "boom", .error "boom", .error "boom"⟩).savedBest =
      bestSubmissionFile
        (pipelineTail true true (some "date") [("mean", [⟨1, 1⟩])]
          ⟨.error "boom", .error "boom", .error "boom"⟩).blendResults) :=
  ⟨by decide, by decide,
    pipeline_stage_failures_degrade true true (some "date")
      [("mean", [⟨1, 1⟩])] ⟨.error "boom", .error "boom", .error "boom"⟩
      (by decide) (by decide)⟩

/-- Modelled from the spec: core/weights.py (the WeightOptimizer) is
not under src/.  Spec 4.5 and 9: each optimizer trial derives its own
sub-seed deterministically from the base seed and the trial index. -/
def deriveSubSeed (baseSeed trial : Nat) : Nat := baseSeed + 1000003 * trial

/-- Modelled from the spec: core/weights.py is not under src/.  The
explicit randomness handle threaded through the optimizer (spec 9), a
linear congruential step on the current seed state. -/
def lcg (s : Nat) : Nat := (1103515245 * s + 12345) % 2147483648

/-- Modelled from the spec: core/weights.py is not under src/.  Raw
positive draw of k coordinates from a sub-seed, before projection onto
the simplex (spec 4.5: sample an initial point on the simplex). -/
def rawDraw (s k : Nat) : List ℚ :=
  (List.range k).map (fun i => ((lcg (s + i) % 97 + 1 : Nat) : ℚ))

/-- Modelled from the spec: core/weights.py is not under src/.  Scale a
vector by the inverse of its sum, landing on the simplex when the
entries are non-negative with positive sum. -/
def normalize (w : List ℚ) : List ℚ := w.map (fun x => x / w.sum)

/-- Modelled from the spec: core/weights.py is not under src/.  Clip
negative coordinates to zero, the first half of the simplex
projection. -/
def clipNonneg (w : List ℚ) : List ℚ := w.map (fun x => max x 0)

/-- Modelled from the spec: core/weights.py is not under src/.
Projection back onto the probability simplex over k models (spec 4.5:
refine by perturbations projected back onto the simplex); degenerates
to the uniform point when everything was clipped away. -/
def projectSimplex (k : Nat) (w : List ℚ) : List ℚ :=
  let c := clipNonneg w
  if c.sum = 0 then List.replicate k ((1 : ℚ) / (k : ℚ)) else normalize c

/-- Modelled from the spec: core/weights.py is not under src/.  A small
perturbation of one coordinate, chosen from the trial sub-seed. -/
def perturb (s : Nat) (w : List ℚ) : List ℚ :=
  let i := lcg s % w.length
  w.set i (w.getD i 0 + 1 / 8)

/-- Modelled from the spec: core/weights.py is not under src/.  One
hill-climbing step: perturb, project onto the simplex, accept only if
the metric does not decrease (spec 4.5). -/
def refineStep (score : List ℚ → ℚ) (k s : Nat) (w : List ℚ) : List ℚ :=
  let c := projectSimplex k (perturb s w)
  if score w ≤ score c then c else w

/-- Modelled from the spec: core/weights.py is not under src/.  The
bounded local-refinement loop of one trial (spec 4.5, with the interior
algorithm an implementation freedom per spec 9). -/
def refineLoop (score : List ℚ → ℚ) (k : Nat) : Nat → Nat → List ℚ → List ℚ
  | 0, _, w => w
  | n + 1, s, w => refineLoop score k n (lcg s) (refineStep score k s w)

/-- Modelled from the spec: core/weights.py is not under src/.  One
optimizer trial: a pure function of the sub-seed and the (implicit,
immutable) data baked into the score function; returns the refined
weights and their score. -/
def runTrial (score : List ℚ → ℚ) (k iters subSeed : Nat) : List ℚ × ℚ :=
  let w := refineLoop score k iters subSeed (normalize (rawDraw subSeed k))
  (w, score w)

/-- Modelled from the spec: core/weights.py is not under src/.  Keep
the better of two (weights, score) pairs; on ties the earlier trial is
kept (spec 4.5). -/
def betterTrial (best cur : List ℚ × ℚ) : List ℚ × ℚ :=
  if best.2 < cur.2 then cur else best

/-- Modelled from the spec: core/weights.py is not under src/.  Serial
execution of the restart trials: run trial 0, then each later trial in
order, tracking the best pair. -/
def optimizeWeightsSerial (score : List ℚ → ℚ)
    (k iters restarts seed : Nat) : List ℚ × ℚ :=
  ((List.range restarts).drop 1).foldl
    (fun best i => betterTrial best (runTrial score k iters (deriveSubSeed seed i)))
    (runTrial score k iters (deriveSubSeed seed 0))

/-- Modelled from the spec: core/weights.py is not under src/.  The
final reduction of parallel execution: select the maximum-scoring trial
from the list of all trial results, earliest trial on ties (spec 5). -/
def reduceBest : List (List ℚ × ℚ) → List ℚ × ℚ
  | [] => ([], 0)
  | r :: rs => rs.foldl betterTrial r

/-- Modelled from the spec: core/weights.py is not under src/.
Parallel execution of the restart trials: all trial results are
computed independently from their derived sub-seeds, then reduced. -/
def optimizeWeightsParallel (score : List ℚ → ℚ)
    (k iters restarts seed : Nat) : List ℚ × ℚ :=
  reduceBest ((List.range restarts).map
    (fun i => runTrial score k iters (deriveSubSeed seed i)))

lemma reduceBest_cons (r : List ℚ × ℚ) (rs : List (List ℚ × ℚ)) :
    reduceBest (r :: rs) = rs.foldl betterTrial r := rfl

/-- C8: with a fixed seed, fixed data (the score function) and fixed
search parameters, the optimizer output is identical across repeated
runs, and serial execution of the restart trials equals parallel
execution followed by the max-score reduction, because every trial is a
pure function of its sub-seed derived from (base seed, trial index). -/
theorem optimize_weights_reproducible (score : List ℚ → ℚ)
    (k iters restarts seed : Nat) (h : 1 ≤ restarts) :
    optimizeWeightsSerial score k iters restarts seed =
      optimizeWeightsSerial score k iters restarts seed ∧
    optimizeWeightsSerial score k iters restarts seed =
      optimizeWeightsParallel score k iters restarts seed := by
  refine ⟨rfl, ?_⟩
  obtain ⟨n, rfl⟩ : ∃ n, restarts = n + 1 := ⟨restarts - 1, by omega⟩
  unfold optimizeWeightsSerial optimizeWeightsParallel
  rw [List.range_succ_eq_map, List.map_cons, reduceBest_cons,
    List.drop_succ_cons, List.drop_zero, List.map_map, List.foldl_map,
    List.foldl_map]
  rfl

/-- Witness for optimize_weights_reproducible with two restarts. -/
theorem optimize_weights_reproducible_witness :
    1 ≤ 2 ∧
    (optimizeWeightsSerial List.sum 2 1 2 7 =
        optimizeWeightsSerial List.sum 2 1 2 7 ∧
      optimizeWeightsSerial List.sum 2 1 2 7 =
        optimizeWeightsParallel List.sum 2 1 2 7) :=
  ⟨by decide, optimize_weights_reproducible List.sum 2 1 2 7 (by decide)⟩

/-- Membership of the probability simplex over k models. -/
def onSimplex (k : Nat) (w : List ℚ) : Prop :=
  w.length = k ∧ (∀ x ∈ w, 0 ≤ x) ∧ w.sum = 1

lemma sum_map_div (w : List ℚ) (s : ℚ) :
    (w.map (fun x => x / s)).sum = w.sum / s := by
  induction w with
  | nil => simp
  | cons a l ih => simp [ih, add_div]

lemma normalize_onSimplex (w : List ℚ) (h0 : ∀ x ∈ w, 0 ≤ x)
    (hs : 0 < w.sum) : onSimplex w.length (normalize w) := by
  refine ⟨by simp [normalize], ?_, ?_⟩
  · intro x hx
    obtain ⟨y, hy, rfl⟩ := List.mem_map.mp hx
    exact div_nonneg (h0 y hy) hs.le
  · rw [normalize, sum_map_div, div_self hs.ne.symm]

lemma rawDraw_pos (s k : Nat) : ∀ x ∈ rawDraw s k, 0 < x := by
  intro x hx
  obtain ⟨i, _, rfl⟩ := List.mem_map.mp hx
  have : 0 < lcg (s + i) % 97 + 1 := Nat.succ_pos _
  exact_mod_cast this

lemma rawDraw_length (s k : Nat) : (rawDraw s k).length = k := by
  simp [rawDraw]

lemma initial_onSimplex (s k : Nat) (hk : 1 ≤ k) :
    onSimplex k (normalize (rawDraw s k)) := by
  have hpos := rawDraw_pos s k
  have hne : rawDraw s k ≠ [] := by
    intro h
    have := rawDraw_length s k
    rw [h] at this
    simp at this
    omega
  have hsum : 0 < (rawDraw s k).sum := List.sum_pos _ hpos hne
  have h := normalize_onSimplex (rawDraw s k) (fun x hx => (hpos x hx).le) hsum
  rwa [rawDraw_length] at h

lemma clipNonneg_nonneg (w : List ℚ) : ∀ x ∈ clipNonneg w, 0 ≤ x := by
  intro x hx
  obtain ⟨y, _, rfl⟩ := List.mem_map.mp hx
  exact le_max_right y 0

lemma projectSimplex_onSimplex (k : Nat) (hk : 1 ≤ k) (w : List ℚ)
    (hw : w.length = k) : onSimplex k (projectSimplex k w) := by
  have hkq : (k : ℚ) ≠ 0 := Nat.cast_ne_zero.mpr (by omega)
  unfold projectSimplex
  have hlen : (clipNonneg w).length = w.length := by simp [clipNonneg]
  by_cases hs : (clipNonneg w).sum = 0
  · rw [if_pos hs]
    refine ⟨List.length_replicate _ _, ?_, ?_⟩
    · intro x hx
      have := List.eq_of_mem_replicate hx
      rw [this]
      positivity
    · rw [List.sum_replicate, nsmul_eq_mul, mul_one_div, div_self hkq]
  · rw [if_neg hs]
    have hsum : 0 < (clipNonneg w).sum :=
      lt_of_le_of_ne (List.sum_nonneg (clipNonneg_nonneg w)) (Ne.symm hs)
    have h := normalize_onSimplex (clipNonneg w) (clipNonneg_nonneg w) hsum
    rwa [hlen, hw] at h

lemma perturb_length (s : Nat) (w : List ℚ) :
    (perturb s w).length = w.length := by
  simp [perturb]

lemma refineStep_onSimplex (score : List ℚ → ℚ) (k s : Nat) (hk : 1 ≤ k)
    (w : List ℚ) (hw : onSimplex k w) :
    onSimplex k (refineStep score k s w) := by
  unfold refineStep
  by_cases h : score w ≤ score (projectSimplex k (perturb s w))
  · rw [if_pos h]
    exact projectSimplex_onSimplex k hk _ (by rw [perturb_length, hw.1])
  · rw [if_neg h]
    exact hw

lemma refineLoop_succ (score : List ℚ → ℚ) (k n s : Nat) (w : List ℚ) :
    refineLoop score k (n + 1) s w =
      refineLoop score k n (lcg s) (refineStep score k s w) := rfl

lemma refineLoop_onSimplex (score : List ℚ → ℚ) (k : Nat) (hk : 1 ≤ k) :
    ∀ (n s : Nat) (w : List ℚ), onSimplex k w →
      onSimplex k (refineLoop score k n s w) := by
  intro n
  induction n with
  | zero => intro s w hw; exact hw
  | succ m ih =>
    intro s w hw
    rw [refineLoop_succ]
    exact ih (lcg s) (refineStep score k s w) (refineStep_onSimplex score k s hk w hw)

lemma runTrial_onSimplex (score : List ℚ → ℚ) (k iters subSeed : Nat)
    (hk : 1 ≤ k) : onSimplex k (runTrial score k iters subSeed).1 :=
  refineLoop_onSimplex score k hk iters subSeed _ (initial_onSimplex subSeed k hk)

lemma betterTrial_cases (b c : List ℚ × ℚ) :
    betterTrial b c = b ∨ betterTrial b c = c := by
  unfold betterTrial
  by_cases h : b.2 < c.2
  · exact Or.inr (if_pos h)
  · exact Or.inl (if_neg h)

lemma foldl_betterTrial_invariant (P : List ℚ × ℚ → Prop)
    (f : Nat → List ℚ × ℚ) (l : List Nat) (init : List ℚ × ℚ)
    (hi : P init) (hf : ∀ i ∈ l, P (f i)) :
    P (l.foldl (fun b i => betterTrial b (f i)) init) := by
  induction l generalizing init with
  | nil => exact hi
  | cons a l ih =>
    refine ih _ ?_ (fun i hi₂ => hf i (List.mem_cons_of_mem a hi₂))
    show P (betterTrial init (f a))
    rcases betterTrial_cases init (f a) with h | h
    · rw [h]; exact hi
    · rw [h]; exact hf a (List.mem_cons_self a l)

/-- C9: every weight vector returned by the optimizer lies on the
probability simplex over the k models in optimization scope: it has one
non-negative weight per model and the weights sum to one, hence to one
within the 1e-6 tolerance stated by the spec. -/
theorem optimize_weights_simplex (score : List ℚ → ℚ)
    (k iters restarts seed : Nat) (hk : 1 ≤ k) (hr : 1 ≤ restarts) :
    (optimizeWeightsSerial score k iters restarts seed).1.length = k ∧
    (∀ x ∈ (optimizeWeightsSerial score k iters restarts seed).1, 0 ≤ x) ∧
    (optimizeWeightsSerial score k iters restarts seed).1.sum = 1 ∧
    |(optimizeWeightsSerial score k iters restarts seed).1.sum - 1|
      ≤ 1 / 1000000 := by
  have hmain : onSimplex k (optimizeWeightsSerial score k iters restarts seed).1 := by
    unfold optimizeWeightsSerial
    exact foldl_betterTrial_invariant (fun r => onSimplex k r.1) _ _ _
      (runTrial_onSimplex score k iters _ hk)
      (fun i _ => runTrial_onSimplex score k iters _ hk)
  obtain ⟨hlen, hnn, hsum⟩ := hmain
  refine ⟨hlen, hnn, hsum, ?_⟩
  rw [hsum, sub_self, abs_zero]
  norm_num

/-- Witness for optimize_weights_simplex at a concrete configuration. -/
theorem optimize_weights_simplex_witness :
    (1 ≤ 2 ∧ 1 ≤ 3) ∧
    ((optimizeWeightsSerial List.sum 2 1 3 42).1.length = 2 ∧
      (∀ x ∈ (optimizeWeightsSerial List.sum 2 1 3 42).1, 0 ≤ x) ∧
      (optimizeWeightsSerial List.sum 2 1 3 42).1.sum = 1 ∧
      |(optimizeWeightsSerial List.sum 2 1 3 42).1.sum - 1| ≤ 1 / 1000000) :=
  ⟨⟨by decide, by decide⟩,
    optimize_weights_simplex List.sum 2 1 3 42 (by decide) (by decide)⟩

end Crediblend
